import Mathlib

/-!
Shallow embedding of `pydmrs/components.py`: the predicate lattice
(`Pred`, `RealPred`, `GPred`) and the sort-information lattice
(`Sortinfo`, `EventSortinfo`, `InstanceSortinfo`), together with their
string/dictionary parsing and subsumption comparison. Python strings are
modelled as Lean `String` / `List Char` (ASCII case semantics), fallible
code returns `Except Err`, and each error class of the source is a
distinct constructor of `Err`.
-/

namespace PyDmrs

/-- Error classes raised by the source: `PydmrsValueError`, `PydmrsKeyError`
(and plain dict `KeyError`), `PydmrsTypeError`, Python `AttributeError`
(slot machinery), and Python `IndexError` (out-of-range string indexing). -/
inductive Err where
  | valueError
  | keyError
  | typeError
  | attributeError
  | indexError
deriving DecidableEq, Repr

deriving instance DecidableEq for Except

/-- ASCII model of Python's uppercase test (`str.isupper` per character). -/
def isUpperA (c : Char) : Bool := 65 ≤ c.toNat && c.toNat ≤ 90

/-- ASCII model of a lowercase cased character. -/
def isLowerA (c : Char) : Bool := 97 ≤ c.toNat && c.toNat ≤ 122

/-- ASCII model of Python's `str.lower` on one character. -/
def lowerChar (c : Char) : Char :=
  if isUpperA c then Char.ofNat (c.toNat + 32) else c

/-- Model of Python's `str.islower`: at least one cased character and no
cased character is uppercase (ASCII alphabet). -/
def pyIslowerL (cs : List Char) : Bool := cs.any isLowerA && !cs.any isUpperA

/-- Model of Python's `str.lower` on a character list. -/
def pyLowerL (cs : List Char) : List Char := cs.map lowerChar

/-- Model of Python's `str.lower` on a string. -/
def pyLower (s : String) : String := String.mk (pyLowerL s.data)

/-- Test whether a character list ends with the four characters `_rel`
(Python `string[-4:] == '_rel'`). -/
def endsRelL (cs : List Char) : Bool := cs.reverse.take 4 = ['l', 'e', 'r', '_']

/-- Python list/str containment helper: does `n` occur at the start of `h`. -/
def startsList : List Char → List Char → Bool
  | [], _ => true
  | _ :: _, [] => false
  | a :: as, b :: bs => a = b && startsList as bs

/-- Python substring test `n in h` on character lists. -/
def insideList (n : List Char) : List Char → Bool
  | [] => startsList n []
  | c :: cs => startsList n (c :: cs) || insideList n cs

/-- `Pred.normalise_string` from `components.py`, on character lists:
reject spaces, strip one layer of matched double quotes, strip one
deprecated leading single quote, reject remaining double quotes, force
lower case, strip one trailing `_rel`.  Out-of-range indexing on the
empty string is the `indexError` outcome. -/
def normaliseChars (cs : List Char) : Except Err (List Char) :=
  if cs.contains ' ' then .error .valueError
  else
    match cs with
    | [] => .error .indexError
    | c0 :: rest0 =>
      let cs1 := if c0 = '"' ∧ (c0 :: rest0).getLast? = some '"'
                 then (c0 :: rest0).tail.dropLast else c0 :: rest0
      match cs1 with
      | [] => .error .indexError
      | c1 :: rest1 =>
        let cs2 := if c1 = '\'' then rest1 else c1 :: rest1
        if cs2.contains '"' then .error .valueError
        else
          let cs3 := if pyIslowerL cs2 then cs2 else pyLowerL cs2
          let cs4 := if endsRelL cs3 then cs3.take (cs3.length - 4) else cs3
          .ok cs4

/-- `Pred.normalise_string` on strings. -/
def Pred.normalise_string (s : String) : Except Err String :=
  (normaliseChars s.data).map String.mk

/-- Split a character list at the first occurrence of `sep`, when present. -/
def breakAtSep (sep : Char) : List Char → Option (List Char × List Char)
  | [] => none
  | c :: cs =>
    if c = sep then some ([], cs)
    else
      match breakAtSep sep cs with
      | none => none
      | some (a, b) => some (c :: a, b)

/-- Python `str.split(sep, maxsplit)` on a character list: split at most
`n` times, scanning from the left. -/
def splitLeftN (sep : Char) : Nat → List Char → List (List Char)
  | 0, cs => [cs]
  | n + 1, cs =>
    match breakAtSep sep cs with
    | none => [cs]
    | some (a, b) => a :: splitLeftN sep n b

/-- Python `str.rsplit(sep, maxsplit)` on a character list: split at most
`n` times, scanning from the right. -/
def pyRsplit (sep : Char) (n : Nat) (cs : List Char) : List (List Char) :=
  ((splitLeftN sep n cs.reverse).map List.reverse).reverse

/-- Join parts with a separator (inverse of splitting on it). -/
def joinSep (sep : Char) : List (List Char) → List Char
  | [] => []
  | [x] => x
  | x :: xs => x ++ sep :: joinSep sep xs

/-- Predicate values: the completely underspecified `Pred()`, a
`RealPred(lemma, pos, sense)`, or a `GPred(name)`. -/
inductive Pred where
  | top
  | realPred (lem pos : String) (sense : Option String)
  | gpred (name : String)
deriving DecidableEq, Repr

/-- `RealPred.__new__`: requires non-empty lemma and pos and no spaces in
any field (an empty sense is falsy in Python, so its space check is
skipped). -/
def realPredMake (lem pos : String) (sense : Option String) : Except Err Pred :=
  if lem = "" then .error .valueError
  else if pos = "" then .error .valueError
  else if lem.data.contains ' ' || pos.data.contains ' '
          || (match sense with
              | some v => !(v = "") && v.data.contains ' '
              | none => false) then .error .valueError
  else .ok (.realPred lem pos sense)

/-- `GPred.__new__`: requires a non-empty name. -/
def gpredMake (name : String) : Except Err Pred :=
  if name = "" then .error .valueError else .ok (.gpred name)

/-- `RealPred.from_normalised_string` on character lists: require a
leading underscore, rsplit the remainder from the right into at most 3
parts, require at least 2 parts, and build the `RealPred`. -/
def realFromNormChars (cs : List Char) : Except Err Pred :=
  match cs with
  | [] => .error .indexError
  | c :: rest =>
    if c = '_' then
      match pyRsplit '_' 2 rest with
      | [l, p] => realPredMake (String.mk l) (String.mk p) none
      | [l, p, s] => realPredMake (String.mk l) (String.mk p) (some (String.mk s))
      | [_] => .error .valueError
      | _ => .error .typeError
    else .error .valueError

/-- `GPred.from_normalised_string` on character lists: require no leading
underscore; the whole string is the name. -/
def gpredFromNormChars (cs : List Char) : Except Err Pred :=
  match cs with
  | [] => .error .indexError
  | c :: _ => if c = '_' then .error .valueError else gpredMake (String.mk cs)

/-- `RealPred.from_normalised_string` on strings. -/
def RealPred.from_normalised_string (s : String) : Except Err Pred :=
  realFromNormChars s.data

/-- `GPred.from_normalised_string` on strings. -/
def GPred.from_normalised_string (s : String) : Except Err Pred :=
  gpredFromNormChars s.data

/-- `Pred.from_normalised_string`: dispatch on the leading underscore. -/
def Pred.from_normalised_string (s : String) : Except Err Pred :=
  match s.data with
  | [] => .error .indexError
  | c :: _ =>
    if c = '_' then realFromNormChars s.data else gpredFromNormChars s.data

/-- `Pred.from_string`: normalise, then parse the normalised string. -/
def Pred.from_string (s : String) : Except Err Pred :=
  Pred.normalise_string s >>= Pred.from_normalised_string

/-- `__str__` of the three predicate classes: `Pred()` renders as
`predsort`; `RealPred` joins its fields with underscores behind a leading
underscore, dropping a falsy (absent or empty) sense; `GPred` renders its
bare name. -/
def predToString : Pred → String
  | .top => "predsort"
  | .realPred l p s =>
    match s with
    | some v =>
      if v = "" then "_" ++ l ++ "_" ++ p
      else "_" ++ l ++ "_" ++ p ++ "_" ++ v
    | none => "_" ++ l ++ "_" ++ p
  | .gpred n => n

/-- Python `a <= b` on predicate values (reflected dispatch agrees with
`Pred.__le__` / `RealPred.__le__` / `GPred.__le__` in every case):
`Pred()` is below everything; same-family comparison is field-wise with
the wildcard markers `?` (lemma/pos/name), `u` (pos), `unknown` (sense);
cross-family comparison is false. -/
def predLe : Pred → Pred → Bool
  | .top, _ => true
  | .realPred l p s, .realPred l' p' s' =>
    (l = "?" || l = l') && (p = "?" || p = "u" || p = p')
      && (s = some "?" || s = some "unknown" || s = s')
  | .realPred _ _ _, _ => false
  | .gpred n, .gpred n' => n = "?" || n = n'
  | .gpred _, _ => false

/-- Python `a >= b` on predicate values: a concrete predicate is `>=` a
bare `Pred()` (`type(other) == Pred`); otherwise same-family delegation
to the other operand's `<=`; `Pred() >= concrete` resolves through the
subclass's reflected `__le__` and is false. -/
def predGe : Pred → Pred → Bool
  | .top, .top => true
  | .top, _ => false
  | .realPred _ _ _, .top => true
  | .realPred l p s, .realPred l' p' s' => predLe (.realPred l' p' s') (.realPred l p s)
  | .realPred _ _ _, _ => false
  | .gpred _, .top => true
  | .gpred n, .gpred n' => predLe (.gpred n') (.gpred n)
  | .gpred _, _ => false

/-- Feature record of `EventSortinfo` (`__slots__`): sentence force,
tense, mood, perfect, progressive; each `None` or a string. -/
structure EventS where
  sf : Option String
  tense : Option String
  mood : Option String
  perf : Option String
  prog : Option String
deriving DecidableEq, Repr

/-- Feature record of `InstanceSortinfo` (`__slots__`): person, number,
gender, individuated, pronoun type. -/
structure InstanceS where
  pers : Option String
  num : Option String
  gend : Option String
  ind : Option String
  pt : Option String
deriving DecidableEq, Repr

/-- Sort-information values: the underspecified `Sortinfo()`, an
`EventSortinfo`, or an `InstanceSortinfo`. -/
inductive Sortinfo where
  | unspecified
  | event (e : EventS)
  | inst (i : InstanceS)
deriving DecidableEq, Repr

/-- The ordered feature-name list of `EventSortinfo`. -/
def eventFeatures : List String := ["sf", "tense", "mood", "perf", "prog"]

/-- The ordered feature-name list of `InstanceSortinfo`. -/
def instanceFeatures : List String := ["pers", "num", "gend", "ind", "pt"]

/-- The fixed class attribute `cvarsort` of each variant. -/
def cvarsortOf : Sortinfo → String
  | .unspecified => "i"
  | .event _ => "e"
  | .inst _ => "x"

/-- The `features` class attribute of each variant. -/
def featuresOf : Sortinfo → List String
  | .unspecified => []
  | .event _ => eventFeatures
  | .inst _ => instanceFeatures

/-- Raw stored value of a feature slot (`getattr`); `none` where the
variant has no such slot. -/
def featureVal : Sortinfo → String → Option String
  | .unspecified, _ => none
  | .event e, k =>
    if k = "sf" then e.sf
    else if k = "tense" then e.tense
    else if k = "mood" then e.mood
    else if k = "perf" then e.perf
    else if k = "prog" then e.prog
    else none
  | .inst i, k =>
    if k = "pers" then i.pers
    else if k = "num" then i.num
    else if k = "gend" then i.gend
    else if k = "ind" then i.ind
    else if k = "pt" then i.pt
    else none

/-- `Sortinfo.__getitem__`: lower-case the feature name, answer
`cvarsort`, look up a slot of the variant's feature list, and raise
`PydmrsKeyError` for anything else. -/
def Sortinfo.getItem (a : Sortinfo) (k : String) : Except Err (Option String) :=
  let k := pyLower k
  if k = "cvarsort" then .ok (some (cvarsortOf a))
  else if (featuresOf a).contains k then .ok (featureVal a k)
  else .error .keyError

/-- `Sortinfo.iter_specified`: the `(feature, value)` pairs, in feature
order, whose value is not `None`, `'?'`, or `'u'`. -/
def iterSpecified (a : Sortinfo) : List (String × String) :=
  (featuresOf a).filterMap fun k =>
    match featureVal a k with
    | none => none
    | some v => if v = "?" ∨ v = "u" then none else some (k, v)

/-- Generator body of `Sortinfo.__le__`'s `all(...)`: check each
specified pair of the left operand against `other[key]`, stopping at the
first mismatch (so later `KeyError`s are not raised, like Python's
short-circuiting `all`). -/
def leGo (b : Sortinfo) : List (String × String) → Except Err Bool
  | [] => .ok true
  | kv :: r =>
    match Sortinfo.getItem b kv.1 with
    | .error e => .error e
    | .ok w => if w = some kv.2 then leGo b r else .ok false

/-- `Sortinfo.__le__`: the left `cvarsort` is the unspecified `'i'` or
equals the right one, and every specified feature of the left operand has
an equal value on the right operand. -/
def Sortinfo.le (a b : Sortinfo) : Except Err Bool :=
  if cvarsortOf a = "i" ∨ cvarsortOf a = cvarsortOf b then leGo b (iterSpecified a)
  else .ok false

/-- `Sortinfo.__ge__`: delegates to the right operand's `__le__` with the
operands swapped (`other.__le__(self)`). -/
def Sortinfo.ge (a b : Sortinfo) : Except Err Bool := Sortinfo.le b a

/-- `Sortinfo.__eq__`: equal `cvarsort` and set-equality of the specified
`(feature, value)` pairs. -/
def Sortinfo.eqB (a b : Sortinfo) : Bool :=
  cvarsortOf a = cvarsortOf b
    && (iterSpecified a).all (fun kv => (iterSpecified b).contains kv)
    && (iterSpecified b).all (fun kv => (iterSpecified a).contains kv)

/-- Sortinfo dictionaries: association lists from keys to a value that is
`None` or a string.  Python dict semantics keep keys unique. -/
abbrev Dict := List (String × Option String)

/-- Dictionary lookup (`d[k]` / `k in d`). -/
def lookupD (d : Dict) (k : String) : Option (Option String) :=
  (List.find? (fun kv => kv.1 = k) d).map Prod.snd

/-- Dictionary update `d[k] = v`: replace the value at an existing key
(keeping its position, as Python dicts do), else append the new entry. -/
def setD : Dict → String → Option String → Dict
  | [], k, v => [(k, v)]
  | kv :: r, k, v => if kv.1 = k then (k, v) :: r else kv :: setD r k v

/-- Dictionary deletion `d.pop(k)`. -/
def removeD (d : Dict) (k : String) : Dict :=
  List.filter (fun kv => !(kv.1 = k : Bool)) d

/-- Number of keys. -/
def lenD (d : Dict) : Nat := List.length d

/-- Key-lowercasing comprehension `{key.lower(): value for key, value in
dictionary.items()}` (later duplicates overwrite earlier ones). -/
def lowerKeysD (d : Dict) : Dict :=
  List.foldl (fun acc kv => setD acc (pyLower kv.1) kv.2) [] d

/-- `Sortinfo.normalise_dict`: lower-case all keys, require and
lower-case `cvarsort` (a missing key is the `PydmrsValueError`; a `None`
value makes `.lower()` raise `AttributeError`), and when the `cvarsort`
is not a substring of `'ex'` (Python's `not in 'ex'`) and more than one
key is present, infer `'e'` from any Event feature key, else `'x'` from
any Instance feature key. -/
def Sortinfo.normalise_dict (d : Dict) : Except Err Dict :=
  let d1 := lowerKeysD d
  match lookupD d1 "cvarsort" with
  | none => .error .valueError
  | some none => .error .attributeError
  | some (some v) =>
    let w := pyLower v
    let d2 := setD d1 "cvarsort" (some w)
    if insideList w.data "ex".data = false ∧ 1 < lenD d2 then
      if eventFeatures.any (fun k => (lookupD d2 k).isSome) then
        .ok (setD d2 "cvarsort" (some "e"))
      else if instanceFeatures.any (fun k => (lookupD d2 k).isSome) then
        .ok (setD d2 "cvarsort" (some "x"))
      else .ok d2
    else .ok d2

/-- `Sortinfo.__setattr__` on an Event record: lower-case the feature
name and (non-`None`) value, store into the slot, and raise
`AttributeError` when the name is no slot of the class. -/
def setEventFeat (e : EventS) (k : String) (v : Option String) : Except Err EventS :=
  let k := pyLower k
  let v := v.map pyLower
  if k = "sf" then .ok { e with sf := v }
  else if k = "tense" then .ok { e with tense := v }
  else if k = "mood" then .ok { e with mood := v }
  else if k = "perf" then .ok { e with perf := v }
  else if k = "prog" then .ok { e with prog := v }
  else .error .attributeError

/-- `Sortinfo.__setattr__` on an Instance record. -/
def setInstanceFeat (i : InstanceS) (k : String) (v : Option String) : Except Err InstanceS :=
  let k := pyLower k
  let v := v.map pyLower
  if k = "pers" then .ok { i with pers := v }
  else if k = "num" then .ok { i with num := v }
  else if k = "gend" then .ok { i with gend := v }
  else if k = "ind" then .ok { i with ind := v }
  else if k = "pt" then .ok { i with pt := v }
  else .error .attributeError

/-- Keyword construction `cls(**{k: v for k, v in d.items() if k !=
'cvarsort'})` for `EventSortinfo`: every feature starts as `None` and the
remaining entries are assigned in order. -/
def eventBuild (e : EventS) : Dict → Except Err EventS
  | [] => .ok e
  | kv :: r =>
    if kv.1 = "cvarsort" then eventBuild e r
    else
      match setEventFeat e kv.1 kv.2 with
      | .error err => .error err
      | .ok e' => eventBuild e' r

/-- Keyword construction for `InstanceSortinfo`. -/
def instanceBuild (i : InstanceS) : Dict → Except Err InstanceS
  | [] => .ok i
  | kv :: r =>
    if kv.1 = "cvarsort" then instanceBuild i r
    else
      match setInstanceFeat i kv.1 kv.2 with
      | .error err => .error err
      | .ok i' => instanceBuild i' r

/-- `EventSortinfo.from_normalised_dict` (the metaclass copy of
`Sortinfo._from_normalised_dict`): reject an explicit `cvarsort`
different from `'e'`, then construct from the remaining keys. -/
def EventSortinfo.from_normalised_dict (d : Dict) : Except Err Sortinfo :=
  match lookupD d "cvarsort" with
  | some v =>
    if v = some "e" then (eventBuild ⟨none, none, none, none, none⟩ d).map .event
    else .error .valueError
  | none => (eventBuild ⟨none, none, none, none, none⟩ d).map .event

/-- `InstanceSortinfo.from_normalised_dict`: reject an explicit
`cvarsort` different from `'x'`, then construct from the remaining
keys. -/
def InstanceSortinfo.from_normalised_dict (d : Dict) : Except Err Sortinfo :=
  match lookupD d "cvarsort" with
  | some v =>
    if v = some "x" then (instanceBuild ⟨none, none, none, none, none⟩ d).map .inst
    else .error .valueError
  | none => (instanceBuild ⟨none, none, none, none, none⟩ d).map .inst

/-- `Sortinfo.from_normalised_dict`: dispatch on the resolved `cvarsort`
(`'e'` → Event; `'x'` → Instance, renaming an incoming `prontype` key to
`pt`; anything else → the underspecified `Sortinfo()`). -/
def Sortinfo.from_normalised_dict (d : Dict) : Except Err Sortinfo :=
  match lookupD d "cvarsort" with
  | none => .error .keyError
  | some v =>
    if v = some "e" then EventSortinfo.from_normalised_dict d
    else if v = some "x" then
      let d' := match lookupD d "prontype" with
                | some pv => setD (removeD d "prontype") "pt" pv
                | none => d
      InstanceSortinfo.from_normalised_dict d'
    else .ok .unspecified

/-- `Sortinfo.from_dict`: normalise the dictionary, then dispatch. -/
def Sortinfo.from_dict (d : Dict) : Except Err Sortinfo :=
  Sortinfo.normalise_dict d >>= Sortinfo.from_normalised_dict

/-- `RealPred.from_string` (inherited `Pred.from_string` with `cls =
RealPred`): normalise, then parse as a `RealPred`. -/
def RealPred.from_string (s : String) : Except Err Pred :=
  Pred.normalise_string s >>= RealPred.from_normalised_string

/-- `GPred.from_string`: normalise, then parse as a `GPred`. -/
def GPred.from_string (s : String) : Except Err Pred :=
  Pred.normalise_string s >>= GPred.from_normalised_string

/-!  Theorems for the claims. -/

/-- Claim C10: `normalise_string` presupposes a non-empty input — on the
empty string it fails with the out-of-range index access (IndexError
class) at the first-character inspection, not with a ValueError-class
failure. -/
theorem c10_empty_string :
    Pred.normalise_string "" = .error .indexError
      ∧ Err.indexError ≠ Err.valueError := by
  decide

/-- Claim C2 (code bug): rendering the predicate parsed from
`"_cat_n_1_rel"` yields `"_cat_n_1"` — the `__str__` methods of
`components.py` do not append the `_rel` suffix required by the claim
and by the repository's own tests (`test_RealPred_str`,
`test_GPred_str`). -/
theorem c2_render_eval :
    Pred.from_string "_cat_n_1_rel" = .ok (.realPred "cat" "n" (some "1"))
      ∧ predToString (.realPred "cat" "n" (some "1")) = "_cat_n_1"
      ∧ predToString (.gpred "pron") = "pron"
      ∧ ("_cat_n_1" : String) ≠ "_cat_n_1_rel"
      ∧ ("pron" : String) ≠ "pron_rel" := by
  decide

/-- Claim C1 counterexample: `"_a_b_"` is accepted by `from_string`
(yielding a `RealPred` with an empty sense), its normalised form is
`"_a_b_"` itself, but the rendering is `"_a_b"` — the round trip does not
reproduce the normalised input. -/
theorem c1_counterexample :
    Pred.from_string "_a_b_" = .ok (.realPred "a" "b" (some ""))
      ∧ Pred.normalise_string "_a_b_" = .ok "_a_b_"
      ∧ predToString (.realPred "a" "b" (some "")) = "_a_b"
      ∧ ("_a_b" : String) ≠ "_a_b_" := by
  decide

/-- Claim C3 counterexample: `normalise_string` strips only one trailing
`_rel`, so it succeeds on `"a_rel_rel"` with result `"a_rel"`, and a
second application strips again — normalisation is not idempotent. -/
theorem c3_counterexample :
    Pred.normalise_string "a_rel_rel" = .ok "a_rel"
      ∧ Pred.normalise_string "a_rel" = .ok "a"
      ∧ ("a" : String) ≠ "a_rel" := by
  decide

/-- Claim C7 counterexample: Python's membership test `cvarsort not in
'ex'` is a substring test, so the dictionary `{"cvarsort": "ex",
"tense": "pres"}` skips inference and produces the underspecified
`Sortinfo()`, although the claim's condition (`cvarsort` is not `'e'` or
`'x'`, more than one key, an Event feature present) would force an
Event. -/
theorem c7_counterexample :
    Sortinfo.from_dict [("cvarsort", some "ex"), ("tense", some "pres")]
        = .ok .unspecified
      ∧ cvarsortOf .unspecified ≠ "e" := by
  decide

/-- Claim C8 counterexample: importing `{"cvarsort": "e", "foo": "bar"}`
into `EventSortinfo` fails with the slot machinery's AttributeError-class
failure, not with the mapping's no-such-feature KeyError that the claim
names. -/
theorem c8_counterexample :
    EventSortinfo.from_normalised_dict [("cvarsort", some "e"), ("foo", some "bar")]
        = .error .attributeError
      ∧ Err.attributeError ≠ Err.keyError := by
  decide

/-- Claim C4 counterexample: `Pred() <= x` for the concrete
`RealPred('cat', 'n')` is True (`Pred.__le__` accepts every `Pred`
including subclass instances), contradicting the claim that it is false
for concrete `x`. -/
theorem c4_counterexample :
    predLe .top (.realPred "cat" "n" none) = true
      ∧ Pred.realPred "cat" "n" none ≠ Pred.top := by
  decide

/-- Claim C4 (amended): every predicate `x` satisfies `x >= Pred()` and
also `Pred() <= x`; the comparison that fails is `x <= Pred()`, which is
false for every concrete (non-top) `x`. -/
theorem c4_top_amended :
    ∀ x : Pred, predGe x .top = true ∧ predLe .top x = true
      ∧ (x ≠ .top → predLe x .top = false) := by
  intro x
  cases x with
  | top => exact ⟨rfl, rfl, fun h => absurd rfl h⟩
  | realPred l p s => exact ⟨rfl, rfl, fun _ => rfl⟩
  | gpred n => exact ⟨rfl, rfl, fun _ => rfl⟩

/-- Witness for C4 at the concrete predicate `RealPred('cat', 'n')`. -/
theorem c4_top_amended_witness :
    predGe (.realPred "cat" "n" none) .top = true
      ∧ predLe .top (.realPred "cat" "n" none) = true
      ∧ predLe (.realPred "cat" "n" none) .top = false :=
  ⟨(c4_top_amended (.realPred "cat" "n" none)).1,
   (c4_top_amended (.realPred "cat" "n" none)).2.1,
   (c4_top_amended (.realPred "cat" "n" none)).2.2 (by decide)⟩

theorem splitLeftN_ne_nil (sep : Char) (n : Nat) (cs : List Char) :
    splitLeftN sep n cs ≠ [] := by
  cases n with
  | zero => simp [splitLeftN]
  | succ m =>
    unfold splitLeftN
    cases breakAtSep sep cs with
    | none => simp
    | some ab => simp

theorem pyRsplit_ne_nil (sep : Char) (n : Nat) (cs : List Char) :
    pyRsplit sep n cs ≠ [] := by
  unfold pyRsplit
  simpa using splitLeftN_ne_nil sep n cs.reverse

/-- Claim C5: `RealPred` parsing of a normalised string demands a leading
underscore (ValueError otherwise), splits the remainder from the right
into at most three parts so internal underscores stay in the lemma
(`"_nowhere_near_x_deg"` parses to lemma `nowhere_near`, pos `x`, sense
`deg`), and raises ValueError when fewer than two parts result, as for
`RealPred.from_string("_the_rel")`. -/
theorem c5_realpred_parsing :
    (∀ (c : Char) (cs : List Char), c ≠ '_' →
        RealPred.from_normalised_string (String.mk (c :: cs)) = .error .valueError)
      ∧ RealPred.from_normalised_string "_nowhere_near_x_deg"
          = .ok (.realPred "nowhere_near" "x" (some "deg"))
      ∧ (∀ cs : List Char, (pyRsplit '_' 2 cs).length < 2 →
          RealPred.from_normalised_string (String.mk ('_' :: cs)) = .error .valueError)
      ∧ RealPred.from_string "_the_rel" = .error .valueError := by
  refine ⟨?_, by decide, ?_, by decide⟩
  · intro c cs h
    simp [RealPred.from_normalised_string, realFromNormChars, h]
  · intro cs h
    have hne := pyRsplit_ne_nil '_' 2 cs
    match e : pyRsplit '_' 2 cs with
    | [] => exact absurd e hne
    | [x] => simp [RealPred.from_normalised_string, realFromNormChars, e]
    | x :: y :: t =>
      rw [e] at h
      simp only [List.length_cons] at h
      exact absurd h (by omega)

/-- Witness for C5 at the concrete strings `"a"` (no leading underscore)
and `"_the"` (a single part after the underscore). -/
theorem c5_realpred_parsing_witness :
    RealPred.from_normalised_string (String.mk ('a' :: [])) = .error .valueError
      ∧ RealPred.from_normalised_string (String.mk ('_' :: "the".data))
          = .error .valueError :=
  ⟨c5_realpred_parsing.1 'a' [] (by decide),
   c5_realpred_parsing.2.2.1 "the".data (by decide)⟩

theorem mem_iterSpecified (a : Sortinfo) (kv : String × String) :
    kv ∈ iterSpecified a
      ↔ kv.1 ∈ featuresOf a ∧ featureVal a kv.1 = some kv.2
          ∧ ¬(kv.2 = "?" ∨ kv.2 = "u") := by
  unfold iterSpecified
  rw [List.mem_filterMap]
  constructor
  · rintro ⟨k, hk, hf⟩
    cases hv : featureVal a k with
    | none => rw [hv] at hf; simp at hf
    | some v =>
      rw [hv] at hf
      by_cases hw : v = "?" ∨ v = "u"
      · simp [hw] at hf
      · simp only [if_neg hw] at hf
        have hkv : (k, v) = kv := by simpa using hf
        subst hkv
        exact ⟨hk, hv, hw⟩
  · rintro ⟨h1, h2, h3⟩
    refine ⟨kv.1, h1, ?_⟩
    rw [h2]
    simp [h3]

theorem cvar_eq_top (a : Sortinfo) (h : cvarsortOf a = "i") : a = .unspecified := by
  cases a with
  | unspecified => rfl
  | event e => simp [cvarsortOf] at h
  | inst i => simp [cvarsortOf] at h

theorem featuresOf_eq_of_cvar (a b : Sortinfo) (h : cvarsortOf a = cvarsortOf b) :
    featuresOf a = featuresOf b := by
  cases a <;> cases b <;> first | rfl | simp [cvarsortOf] at h

theorem getItem_ok_of_mem (b : Sortinfo) (k : String) (hk : k ∈ featuresOf b) :
    ∃ w, Sortinfo.getItem b k = .ok w := by
  cases b with
  | unspecified => simp [featuresOf] at hk
  | event e =>
    simp [featuresOf, eventFeatures] at hk
    rcases hk with h | h | h | h | h <;> subst h <;> exact ⟨_, rfl⟩
  | inst i =>
    simp [featuresOf, instanceFeatures] at hk
    rcases hk with h | h | h | h | h <;> subst h <;> exact ⟨_, rfl⟩

theorem getItem_feature (b : Sortinfo) (k : String) (hk : k ∈ featuresOf b) :
    Sortinfo.getItem b k = .ok (featureVal b k) := by
  cases b with
  | unspecified => simp [featuresOf] at hk
  | event e =>
    simp [featuresOf, eventFeatures] at hk
    rcases hk with h | h | h | h | h <;> subst h <;> rfl
  | inst i =>
    simp [featuresOf, instanceFeatures] at hk
    rcases hk with h | h | h | h | h <;> subst h <;> rfl

theorem leGo_eq (b : Sortinfo) (l : List (String × String))
    (h : ∀ kv ∈ l, ∃ w, Sortinfo.getItem b kv.1 = .ok w) :
    leGo b l
      = .ok (l.all fun kv => decide (Sortinfo.getItem b kv.1 = .ok (some kv.2))) := by
  induction l with
  | nil => simp [leGo]
  | cons kv r ih =>
    obtain ⟨w, hw⟩ := h kv (List.mem_cons_self _ _)
    have hr : ∀ x ∈ r, ∃ w, Sortinfo.getItem b x.1 = .ok w :=
      fun x hx => h x (List.mem_cons_of_mem _ hx)
    by_cases he : w = some kv.2
    · subst he
      simp [leGo, hw, ih hr]
    · simp [leGo, hw, he]

theorem le_char (a b : Sortinfo) :
    Sortinfo.le a b
      = .ok (decide (cvarsortOf a = "i" ∨ cvarsortOf a = cvarsortOf b)
          && (iterSpecified a).all
              fun kv => decide (Sortinfo.getItem b kv.1 = .ok (some kv.2))) := by
  unfold Sortinfo.le
  by_cases hc : cvarsortOf a = "i" ∨ cvarsortOf a = cvarsortOf b
  · rw [if_pos hc, decide_eq_true hc, Bool.true_and]
    apply leGo_eq
    intro kv hkv
    have hk1 : kv.1 ∈ featuresOf a := ((mem_iterSpecified a kv).1 hkv).1
    rcases hc with h1 | h2
    · rw [cvar_eq_top a h1] at hk1
      simp [featuresOf] at hk1
    · rw [featuresOf_eq_of_cvar a b h2] at hk1
      exact getItem_ok_of_mem b kv.1 hk1
  · rw [if_neg hc, decide_eq_false hc, Bool.false_and]

/-- Claim C6: `a <= b` on sort information holds exactly when `a`'s
`cvarsort` is the unspecified `'i'` or equals `b`'s, and every specified
feature of `a` (value not `None`, `'?'`, or `'u'`) has an equal value on
`b` — in particular no `KeyError` ever escapes; and `a >= b` delegates to
`b.__le__(a)` with the operands swapped. -/
theorem c6_sortinfo_le :
    ∀ a b : Sortinfo,
      Sortinfo.le a b
          = .ok (decide (cvarsortOf a = "i" ∨ cvarsortOf a = cvarsortOf b)
              && (iterSpecified a).all
                  fun kv => decide (Sortinfo.getItem b kv.1 = .ok (some kv.2)))
        ∧ Sortinfo.ge a b = Sortinfo.le b a := by
  intro a b
  exact ⟨le_char a b, rfl⟩

/-- A wildcard-marked token in the sense of claim C9: `'?'`, `'u'`, or
`'unknown'`. -/
def wildTok (v : String) : Bool := v = "?" || v = "u" || v = "unknown"

/-- An optional field carries no wildcard marker. -/
def optNoWild : Option String → Bool
  | none => true
  | some v => !wildTok v

/-- A predicate value has no wildcard-marked field. -/
def predNoWild : Pred → Bool
  | .top => true
  | .realPred l p s => !wildTok l && !wildTok p && optNoWild s
  | .gpred n => !wildTok n

/-- A sort-information value has no wildcard-marked feature value. -/
def siNoWild : Sortinfo → Bool
  | .unspecified => true
  | .event e => optNoWild e.sf && optNoWild e.tense && optNoWild e.mood
      && optNoWild e.perf && optNoWild e.prog
  | .inst i => optNoWild i.pers && optNoWild i.num && optNoWild i.gend
      && optNoWild i.ind && optNoWild i.pt

theorem wildTok_false {v : String} (h : wildTok v = false) :
    v ≠ "?" ∧ v ≠ "u" ∧ v ≠ "unknown" := by
  simp [wildTok] at h
  exact ⟨h.1.1, h.1.2, h.2⟩

theorem si_spec_subset (a b : Sortinfo) (hcv : cvarsortOf a = cvarsortOf b)
    (hall : ∀ kv ∈ iterSpecified a, Sortinfo.getItem b kv.1 = .ok (some kv.2)) :
    ∀ kv ∈ iterSpecified a, kv ∈ iterSpecified b := by
  intro kv hkv
  obtain ⟨hmem, _hval, hclean⟩ := (mem_iterSpecified a kv).1 hkv
  have hmb : kv.1 ∈ featuresOf b := by
    rw [← featuresOf_eq_of_cvar a b hcv]; exact hmem
  have hb : featureVal b kv.1 = some kv.2 := by
    have := hall kv hkv
    rw [getItem_feature b kv.1 hmb] at this
    exact Except.ok.inj this
  exact (mem_iterSpecified b kv).2 ⟨hmb, hb, hclean⟩

/-- Claim C9: antisymmetry for fully specified values — within either
family (predicates or sort information), mutual subsumption of two values
with no wildcard-marked field (`'?'`, `'u'`, `'unknown'`) implies
equality in the sense of the family's `__eq__`. -/
theorem c9_antisymmetry :
    (∀ a b : Pred, predLe a b = true → predLe b a = true →
        predNoWild a = true → predNoWild b = true → a = b)
      ∧ (∀ a b : Sortinfo, Sortinfo.le a b = .ok true → Sortinfo.le b a = .ok true →
          siNoWild a = true → siNoWild b = true → Sortinfo.eqB a b = true) := by
  constructor
  · intro a b h1 h2 h3 h4
    cases a with
    | top =>
      cases b with
      | top => rfl
      | realPred l p s => simp [predLe] at h2
      | gpred n => simp [predLe] at h2
    | realPred l p s =>
      cases b with
      | top => simp [predLe] at h1
      | realPred l' p' s' =>
        simp only [predLe, Bool.and_eq_true, Bool.or_eq_true,
          decide_eq_true_eq] at h1
        simp only [predNoWild, Bool.and_eq_true, Bool.not_eq_true'] at h3
        obtain ⟨⟨hl, hp⟩, hs⟩ := h1
        obtain ⟨⟨hl3, hp3⟩, hs3⟩ := h3
        have hl3' := wildTok_false hl3
        have hp3' := wildTok_false hp3
        have hll : l = l' := by
          rcases hl with h | h
          · exact absurd h hl3'.1
          · exact h
        have hpp : p = p' := by
          rcases hp with (h | h) | h
          · exact absurd h hp3'.1
          · exact absurd h hp3'.2.1
          · exact h
        have hss : s = s' := by
          rcases hs with (h | h) | h
          · rw [h] at hs3; simp [optNoWild, wildTok] at hs3
          · rw [h] at hs3; simp [optNoWild, wildTok] at hs3
          · exact h
        rw [hll, hpp, hss]
      | gpred n => simp [predLe] at h1
    | gpred n =>
      cases b with
      | top => simp [predLe] at h1
      | realPred l' p' s' => simp [predLe] at h1
      | gpred n' =>
        simp only [predLe, Bool.or_eq_true, decide_eq_true_eq] at h1
        simp only [predNoWild, Bool.not_eq_true'] at h3
        have hn3 := wildTok_false h3
        rcases h1 with h | h
        · exact absurd h hn3.1
        · rw [h]
  · intro a b h1 h2 h3 h4
    rw [le_char] at h1 h2
    simp only [Except.ok.injEq, Bool.and_eq_true, decide_eq_true_eq,
      List.all_eq_true] at h1 h2
    obtain ⟨hc1, hall1⟩ := h1
    obtain ⟨hc2, hall2⟩ := h2
    have hcv : cvarsortOf a = cvarsortOf b := by
      rcases hc1 with h | h
      · rcases hc2 with h' | h'
        · rw [h, h']
        · exact h'.symm
      · exact h
    have hsub1 := si_spec_subset a b hcv (fun kv hkv => hall1 kv hkv)
    have hsub2 := si_spec_subset b a hcv.symm (fun kv hkv => hall2 kv hkv)
    simp only [Sortinfo.eqB, Bool.and_eq_true, decide_eq_true_eq,
      List.all_eq_true]
    refine ⟨⟨hcv, ?_⟩, ?_⟩
    · intro kv hkv
      simpa [List.elem_iff] using hsub1 kv hkv
    · intro kv hkv
      simpa [List.elem_iff] using hsub2 kv hkv

theorem lookupD_setD_self (d : Dict) (k : String) (v : Option String) :
    lookupD (setD d k v) k = some v := by
  induction d with
  | nil => simp [setD, lookupD]
  | cons kv r ih =>
    by_cases h : kv.1 = k
    · simp [setD, h, lookupD]
    · simp only [setD, if_neg h]
      simpa [lookupD, List.find?, h] using ih

theorem lookupD_setD_ne (d : Dict) (k k' : String) (v : Option String)
    (h : k' ≠ k) : lookupD (setD d k v) k' = lookupD d k' := by
  induction d with
  | nil => simp [setD, lookupD, List.find?, Ne.symm h]
  | cons kv r ih =>
    by_cases hk : kv.1 = k
    · subst hk
      simp [setD, lookupD, List.find?, Ne.symm h]
    · simp only [setD, if_neg hk]
      by_cases hk' : kv.1 = k'
      · simp [lookupD, List.find?, hk']
      · simpa [lookupD, List.find?, hk'] using ih

theorem lenD_setD_of_mem (d : Dict) (k : String) (v : Option String)
    (h : (lookupD d k).isSome) : lenD (setD d k v) = lenD d := by
  induction d with
  | nil => simp [lookupD] at h
  | cons kv r ih =>
    by_cases hk : kv.1 = k
    · simp [setD, hk, lenD]
    · simp only [setD, if_neg hk]
      simp only [lookupD, List.find?, hk] at h
      simp only [lenD, List.length_cons]
      rw [show List.length (setD r k v) = lenD (setD r k v) from rfl,
        ih (by simpa [lookupD] using h)]
      rfl

theorem anyCongrD {α : Type} (l : List α) (p q : α → Bool)
    (h : ∀ x ∈ l, p x = q x) : l.any p = l.any q := by
  induction l with
  | nil => rfl
  | cons x r ih =>
    simp only [List.any_cons, h x (List.mem_cons_self _ _),
      ih fun y hy => h y (List.mem_cons_of_mem _ hy)]

/-- Claim C7 (amended): dictionary import requires a `cvarsort` key
(ValueError-class failure otherwise) and, when the lower-cased `cvarsort`
is not a substring of `'ex'` (Python's `not in 'ex'`; in particular when
it is a single character other than `'e'` and `'x'`, but not when it is
`''` or `'ex'`) and more than one key is present, infers the
discriminator by checking Event feature names before Instance feature
names; `from_dict({"cvarsort": "i", "tense": "pres"})` builds an Event
value. -/
theorem eventFeat_ne_cvar {k : String} (hk : k ∈ eventFeatures) :
    k ≠ "cvarsort" := by
  simp [eventFeatures] at hk
  rcases hk with h | h | h | h | h <;> subst h <;> decide

theorem instanceFeat_ne_cvar {k : String} (hk : k ∈ instanceFeatures) :
    k ≠ "cvarsort" := by
  simp [instanceFeatures] at hk
  rcases hk with h | h | h | h | h <;> subst h <;> decide

theorem c7_inference_amended :
    (∀ d : Dict, lookupD (lowerKeysD d) "cvarsort" = none →
        Sortinfo.normalise_dict d = .error .valueError)
      ∧ (∀ (d : Dict) (v : String),
          lookupD (lowerKeysD d) "cvarsort" = some (some v) →
          insideList (pyLower v).data "ex".data = false →
          1 < lenD (lowerKeysD d) →
          eventFeatures.any (fun k => (lookupD (lowerKeysD d) k).isSome) = true →
          ∃ d', Sortinfo.normalise_dict d = .ok d'
              ∧ lookupD d' "cvarsort" = some (some "e"))
      ∧ (∀ (d : Dict) (v : String),
          lookupD (lowerKeysD d) "cvarsort" = some (some v) →
          insideList (pyLower v).data "ex".data = false →
          1 < lenD (lowerKeysD d) →
          eventFeatures.any (fun k => (lookupD (lowerKeysD d) k).isSome) = false →
          instanceFeatures.any (fun k => (lookupD (lowerKeysD d) k).isSome) = true →
          ∃ d', Sortinfo.normalise_dict d = .ok d'
              ∧ lookupD d' "cvarsort" = some (some "x"))
      ∧ Sortinfo.from_dict [("cvarsort", some "i"), ("tense", some "pres")]
          = .ok (.event ⟨none, some "pres", none, none, none⟩) := by
  refine ⟨?_, ?_, ?_, by decide⟩
  · intro d h
    simp [Sortinfo.normalise_dict, h]
  · intro d v hv hin hlen hev
    have hlen2 : lenD (setD (lowerKeysD d) "cvarsort" (some (pyLower v)))
        = lenD (lowerKeysD d) :=
      lenD_setD_of_mem _ _ _ (by rw [hv]; rfl)
    have hev2 : eventFeatures.any
        (fun k => (lookupD (setD (lowerKeysD d) "cvarsort" (some (pyLower v))) k).isSome)
        = true := by
      rw [anyCongrD _ _ (fun k => (lookupD (lowerKeysD d) k).isSome)
        (fun k hk => by
          rw [lookupD_setD_ne _ _ _ _ (eventFeat_ne_cvar hk)]), hev]
    refine ⟨setD (setD (lowerKeysD d) "cvarsort" (some (pyLower v))) "cvarsort"
      (some "e"), ?_, lookupD_setD_self _ _ _⟩
    simp only [Sortinfo.normalise_dict, hv]
    rw [if_pos ⟨hin, by rw [hlen2]; exact hlen⟩, if_pos hev2]
  · intro d v hv hin hlen hev hinst
    have hlen2 : lenD (setD (lowerKeysD d) "cvarsort" (some (pyLower v)))
        = lenD (lowerKeysD d) :=
      lenD_setD_of_mem _ _ _ (by rw [hv]; rfl)
    have hev2 : eventFeatures.any
        (fun k => (lookupD (setD (lowerKeysD d) "cvarsort" (some (pyLower v))) k).isSome)
        = false := by
      rw [anyCongrD _ _ (fun k => (lookupD (lowerKeysD d) k).isSome)
        (fun k hk => by
          rw [lookupD_setD_ne _ _ _ _ (eventFeat_ne_cvar hk)]), hev]
    have hinst2 : instanceFeatures.any
        (fun k => (lookupD (setD (lowerKeysD d) "cvarsort" (some (pyLower v))) k).isSome)
        = true := by
      rw [anyCongrD _ _ (fun k => (lookupD (lowerKeysD d) k).isSome)
        (fun k hk => by
          rw [lookupD_setD_ne _ _ _ _ (instanceFeat_ne_cvar hk)]), hinst]
    refine ⟨setD (setD (lowerKeysD d) "cvarsort" (some (pyLower v))) "cvarsort"
      (some "x"), ?_, lookupD_setD_self _ _ _⟩
    simp only [Sortinfo.normalise_dict, hv]
    rw [if_pos ⟨hin, by rw [hlen2]; exact hlen⟩, if_neg (by rw [hev2]; simp),
      if_pos hinst2]

/-- Witness for C7 at the dictionaries `{"cvarsort": "i", "tense":
"pres"}` (Event inference), `{"cvarsort": "i", "num": "sg"}` (Instance
inference) and `{"tense": "pres"}` (missing `cvarsort`). -/
theorem c7_inference_amended_witness :
    Sortinfo.normalise_dict [("tense", some "pres")] = .error .valueError
      ∧ (∃ d', Sortinfo.normalise_dict [("cvarsort", some "i"), ("tense", some "pres")]
            = .ok d' ∧ lookupD d' "cvarsort" = some (some "e"))
      ∧ (∃ d', Sortinfo.normalise_dict [("cvarsort", some "i"), ("num", some "sg")]
            = .ok d' ∧ lookupD d' "cvarsort" = some (some "x")) :=
  ⟨c7_inference_amended.1 [("tense", some "pres")] (by decide),
   c7_inference_amended.2.1 [("cvarsort", some "i"), ("tense", some "pres")] "i"
     (by decide) (by decide) (by decide) (by decide),
   c7_inference_amended.2.2.1 [("cvarsort", some "i"), ("num", some "sg")] "i"
     (by decide) (by decide) (by decide) (by decide) (by decide)⟩

theorem setEventFeat_err (e : EventS) (k : String) (v : Option String)
    (h : pyLower k ∉ eventFeatures) : setEventFeat e k v = .error .attributeError := by
  simp [eventFeatures] at h
  obtain ⟨h1, h2, h3, h4, h5⟩ := h
  simp [setEventFeat, h1, h2, h3, h4, h5]

theorem setEventFeat_ok (e : EventS) (k : String) (v : Option String)
    (h : pyLower k ∈ eventFeatures) : ∃ e', setEventFeat e k v = .ok e' := by
  simp [eventFeatures] at h
  rcases h with h | h | h | h | h <;> simp [setEventFeat, h]

theorem setInstanceFeat_err (i : InstanceS) (k : String) (v : Option String)
    (h : pyLower k ∉ instanceFeatures) :
    setInstanceFeat i k v = .error .attributeError := by
  simp [instanceFeatures] at h
  obtain ⟨h1, h2, h3, h4, h5⟩ := h
  simp [setInstanceFeat, h1, h2, h3, h4, h5]

theorem setInstanceFeat_ok (i : InstanceS) (k : String) (v : Option String)
    (h : pyLower k ∈ instanceFeatures) : ∃ i', setInstanceFeat i k v = .ok i' := by
  simp [instanceFeatures] at h
  rcases h with h | h | h | h | h <;> simp [setInstanceFeat, h]

theorem eventBuild_err (d : Dict) : ∀ e : EventS,
    (∃ kv ∈ d, kv.1 ≠ "cvarsort" ∧ pyLower kv.1 ∉ eventFeatures) →
    eventBuild e d = .error .attributeError := by
  induction d with
  | nil => intro e h; simp at h
  | cons kv r ih =>
    intro e h
    obtain ⟨bad, hbad, hb1, hb2⟩ := h
    by_cases hc : kv.1 = "cvarsort"
    · have hr : bad ∈ r := by
        rcases List.mem_cons.1 hbad with h | h
        · subst h; exact absurd hc hb1
        · exact h
      simp only [eventBuild, if_pos hc]
      exact ih e ⟨bad, hr, hb1, hb2⟩
    · by_cases hm : pyLower kv.1 ∈ eventFeatures
      · obtain ⟨e', he'⟩ := setEventFeat_ok e kv.1 kv.2 hm
        have hr : bad ∈ r := by
          rcases List.mem_cons.1 hbad with h | h
          · subst h; exact absurd hm hb2
          · exact h
        simp only [eventBuild, if_neg hc, he']
        exact ih e' ⟨bad, hr, hb1, hb2⟩
      · simp only [eventBuild, if_neg hc, setEventFeat_err e kv.1 kv.2 hm]

theorem eventBuild_ok (d : Dict) : ∀ e : EventS,
    (∀ kv ∈ d, kv.1 = "cvarsort" ∨ pyLower kv.1 ∈ eventFeatures) →
    ∃ e', eventBuild e d = .ok e' := by
  induction d with
  | nil => intro e _; exact ⟨e, rfl⟩
  | cons kv r ih =>
    intro e h
    have hr : ∀ x ∈ r, x.1 = "cvarsort" ∨ pyLower x.1 ∈ eventFeatures :=
      fun x hx => h x (List.mem_cons_of_mem _ hx)
    rcases h kv (List.mem_cons_self _ _) with hc | hm
    · obtain ⟨e', he'⟩ := ih e hr
      exact ⟨e', by simp only [eventBuild, if_pos hc]; exact he'⟩
    · by_cases hc : kv.1 = "cvarsort"
      · obtain ⟨e', he'⟩ := ih e hr
        exact ⟨e', by simp only [eventBuild, if_pos hc]; exact he'⟩
      · obtain ⟨e1, he1⟩ := setEventFeat_ok e kv.1 kv.2 hm
        obtain ⟨e', he'⟩ := ih e1 hr
        exact ⟨e', by simp only [eventBuild, if_neg hc, he']; rw [he1]; exact he'⟩

/-- Claim C8 (amended): a concrete variant's dictionary import rejects an
explicit `cvarsort` different from the variant's fixed discriminator with
a ValueError-class failure, and otherwise constructs the value from the
remaining keys as named features — but an unknown feature name raises the
slot machinery's AttributeError-class failure, not the mapping's
no-such-feature KeyError. -/
theorem c8_variant_import_amended :
    (∀ (d : Dict) (v : Option String), lookupD d "cvarsort" = some v →
        v ≠ some "e" → EventSortinfo.from_normalised_dict d = .error .valueError)
      ∧ (∀ (d : Dict) (v : Option String), lookupD d "cvarsort" = some v →
          v ≠ some "x" → InstanceSortinfo.from_normalised_dict d = .error .valueError)
      ∧ (∀ d : Dict,
          (lookupD d "cvarsort" = none ∨ lookupD d "cvarsort" = some (some "e")) →
          (∀ kv ∈ d, kv.1 = "cvarsort" ∨ pyLower kv.1 ∈ eventFeatures) →
          ∃ e, EventSortinfo.from_normalised_dict d = .ok (.event e))
      ∧ (∀ d : Dict,
          (lookupD d "cvarsort" = none ∨ lookupD d "cvarsort" = some (some "e")) →
          (∃ kv ∈ d, kv.1 ≠ "cvarsort" ∧ pyLower kv.1 ∉ eventFeatures) →
          EventSortinfo.from_normalised_dict d = .error .attributeError) := by
  refine ⟨?_, ?_, ?_, ?_⟩
  · intro d v hv hne
    simp [EventSortinfo.from_normalised_dict, hv, hne]
  · intro d v hv hne
    simp [InstanceSortinfo.from_normalised_dict, hv, hne]
  · intro d hcv hall
    obtain ⟨e', he'⟩ := eventBuild_ok d ⟨none, none, none, none, none⟩ hall
    refine ⟨e', ?_⟩
    rcases hcv with h | h <;>
      simp [EventSortinfo.from_normalised_dict, h, he', Except.map]
  · intro d hcv hbad
    have he := eventBuild_err d ⟨none, none, none, none, none⟩ hbad
    rcases hcv with h | h <;>
      simp [EventSortinfo.from_normalised_dict, h, he, Except.map]

/-- Witness for C8 at the concrete dictionaries `{"cvarsort": "x",
"tense": "pres"}` (conflicting discriminator for Event), `{"cvarsort":
"e", "tense": "pres"}` (successful construction) and `{"cvarsort": "e",
"foo": "bar"}` (unknown feature name). -/
theorem c8_variant_import_amended_witness :
    EventSortinfo.from_normalised_dict [("cvarsort", some "x"), ("tense", some "pres")]
        = .error .valueError
      ∧ (∃ e, EventSortinfo.from_normalised_dict
            [("cvarsort", some "e"), ("tense", some "pres")] = .ok (.event e))
      ∧ EventSortinfo.from_normalised_dict [("cvarsort", some "e"), ("foo", some "bar")]
          = .error .attributeError :=
  ⟨c8_variant_import_amended.1 [("cvarsort", some "x"), ("tense", some "pres")]
      (some "x") (by decide) (by decide),
   c8_variant_import_amended.2.2.1 [("cvarsort", some "e"), ("tense", some "pres")]
      (Or.inr (by decide))
      (by decide),
   c8_variant_import_amended.2.2.2 [("cvarsort", some "e"), ("foo", some "bar")]
      (Or.inr (by decide))
      ⟨("foo", some "bar"), by decide, by decide, by decide⟩⟩

theorem toNat_ofNat_small (n : Nat) (h : n < 55296) : (Char.ofNat n).toNat = n := by
  unfold Char.ofNat
  rw [dif_pos (Or.inl h)]
  rfl

theorem toNat_lowerChar (c : Char) :
    (lowerChar c).toNat = if isUpperA c then c.toNat + 32 else c.toNat := by
  unfold lowerChar
  by_cases h : isUpperA c
  · rw [if_pos h, if_pos h]
    have hb : c.toNat ≤ 90 := by
      simp [isUpperA] at h
      exact h.2
    exact toNat_ofNat_small _ (by omega)
  · rw [if_neg h, if_neg h]

theorem lowerChar_not_upper (c : Char) : isUpperA (lowerChar c) = false := by
  by_cases h : isUpperA c
  · have ht : (lowerChar c).toNat = c.toNat + 32 := by
      rw [toNat_lowerChar, if_pos h]
    have h' : 65 ≤ c.toNat ∧ c.toNat ≤ 90 := by simpa [isUpperA] using h
    simp only [isUpperA, ht, Bool.and_eq_false_iff, decide_eq_false_iff_not]
    right
    omega
  · rw [lowerChar, if_neg h]
    simpa using h

theorem lowerChar_eq_self (c : Char) (h : isUpperA c = false) : lowerChar c = c := by
  rw [lowerChar, if_neg (by simp [h])]

theorem lowerChar_ne_space (c : Char) (h : c ≠ ' ') : lowerChar c ≠ ' ' := by
  by_cases hu : isUpperA c
  · intro he
    have ht := congrArg Char.toNat he
    rw [toNat_lowerChar, if_pos hu] at ht
    simp only [isUpperA, Bool.and_eq_true, decide_eq_true_eq] at hu
    rw [show Char.toNat ' ' = 32 from rfl] at ht
    omega
  · rw [lowerChar_eq_self c (by simpa using hu)]
    exact h

theorem lowerChar_ne_quote (c : Char) (h : c ≠ '"') : lowerChar c ≠ '"' := by
  by_cases hu : isUpperA c
  · intro he
    have ht := congrArg Char.toNat he
    rw [toNat_lowerChar, if_pos hu] at ht
    simp only [isUpperA, Bool.and_eq_true, decide_eq_true_eq] at hu
    rw [show Char.toNat '"' = 34 from rfl] at ht
    omega
  · rw [lowerChar_eq_self c (by simpa using hu)]
    exact h

theorem not_mem_of_contains_false {cs : List Char} {c : Char}
    (h : cs.contains c = false) : ∀ x ∈ cs, x ≠ c := by
  intro x hx he
  subst he
  have : x ∉ cs := by simpa using h
  exact this hx

theorem finish_props (cs2 m : List Char)
    (hsp2 : ∀ x ∈ cs2, x ≠ ' ')
    (hqu2 : ∀ x ∈ cs2, x ≠ '"')
    (hm : (if endsRelL (if pyIslowerL cs2 = true then cs2 else pyLowerL cs2) = true then
             List.take ((if pyIslowerL cs2 = true then cs2 else pyLowerL cs2).length - 4)
               (if pyIslowerL cs2 = true then cs2 else pyLowerL cs2)
           else if pyIslowerL cs2 = true then cs2 else pyLowerL cs2) = m) :
    (∀ x ∈ m, x ≠ ' ') ∧ (∀ x ∈ m, x ≠ '"') ∧ (∀ x ∈ m, isUpperA x = false) := by
  subst hm
  set cs3 := if pyIslowerL cs2 = true then cs2 else pyLowerL cs2 with hc3
  have hx3 : ∀ x, (x ∈ if endsRelL cs3 = true then
             List.take (cs3.length - 4) cs3 else cs3) → x ∈ cs3 := by
    intro x hx
    split at hx
    · exact List.take_subset _ _ hx
    · exact hx
  have h3 : (∀ x ∈ cs3, x ≠ ' ') ∧ (∀ x ∈ cs3, x ≠ '"')
      ∧ (∀ x ∈ cs3, isUpperA x = false) := by
    rw [hc3]
    by_cases hl : pyIslowerL cs2 = true
    · rw [if_pos hl]
      have hnoup : cs2.any isUpperA = false := by
        have := hl
        simp only [pyIslowerL, Bool.and_eq_true, Bool.not_eq_true'] at this
        exact this.2
      exact ⟨hsp2, hqu2, fun x hx => by simpa using List.any_eq_false.1 hnoup x hx⟩
    · rw [if_neg hl]
      refine ⟨?_, ?_, ?_⟩ <;> intro x hx <;>
        obtain ⟨y, hy, rfl⟩ := List.mem_map.1 hx
      · exact lowerChar_ne_space y (hsp2 y hy)
      · exact lowerChar_ne_quote y (hqu2 y hy)
      · exact lowerChar_not_upper y
  exact ⟨fun x hx => h3.1 x (hx3 x hx), fun x hx => h3.2.1 x (hx3 x hx),
    fun x hx => h3.2.2 x (hx3 x hx)⟩

theorem normalise_ok_props (cs m : List Char) (h : normaliseChars cs = .ok m) :
    (∀ x ∈ m, x ≠ ' ') ∧ (∀ x ∈ m, x ≠ '"') ∧ (∀ x ∈ m, isUpperA x = false) := by
  unfold normaliseChars at h
  split at h
  · simp at h
  next hsp =>
  have hspm : ∀ x ∈ cs, x ≠ ' ' := by
    intro x hx he
    subst he
    exact hsp (by simpa using hx)
  split at h
  · simp at h
  next c0 rest0 =>
  simp only at h
  split at h
  · simp at h
  next c1 rest1 heq1 =>
  have hsub : ∀ x ∈ c1 :: rest1, x ∈ c0 :: rest0 := by
    intro x hx
    split at heq1
    · rw [← heq1] at hx
      have : x ∈ (c0 :: rest0).tail := List.dropLast_subset _ hx
      exact List.mem_cons_of_mem _ (by simpa using this)
    · rwa [← heq1] at hx
  split at h
  next hq1 =>
    -- c1 = '\'' : cs2 = rest1
    split at h
    · simp at h
    next hqu =>
    simp only [Except.ok.injEq] at h
    refine finish_props rest1 m ?_ ?_ h
    · exact fun x hx => hspm x (hsub x (List.mem_cons_of_mem _ hx))
    · intro x hx he
      subst he
      exact hqu (by simpa using hx)
  next hq1 =>
    split at h
    · simp at h
    next hqu =>
    simp only [Except.ok.injEq] at h
    refine finish_props (c1 :: rest1) m ?_ ?_ h
    · exact fun x hx => hspm x (hsub x hx)
    · intro x hx he
      subst he
      exact hqu (by simpa using hx)

theorem normaliseChars_idem (cs m : List Char) (h : normaliseChars cs = .ok m)
    (hne : m ≠ []) (hq : m.head? ≠ some '\'') (hrel : endsRelL m = false) :
    normaliseChars m = .ok m := by
  obtain ⟨hsp, hqu, hup⟩ := normalise_ok_props cs m h
  obtain ⟨c, rest, rfl⟩ : ∃ c rest, m = c :: rest := by
    cases m with
    | nil => exact absurd rfl hne
    | cons c rest => exact ⟨c, rest, rfl⟩
  unfold normaliseChars
  rw [if_neg (fun hco => hsp ' ' (by simpa using hco) rfl)]
  simp only
  rw [if_neg (fun hc => hqu c (List.mem_cons_self _ _) hc.1)]
  simp only
  have hcq : (if c = '\'' then rest else c :: rest) = c :: rest := by
    apply if_neg
    simp only [List.head?_cons, Ne, Option.some.injEq] at hq
    exact hq
  rw [hcq]
  rw [if_neg (fun hco => hqu '"' (by simpa using hco) rfl)]
  have hlow : pyLowerL (c :: rest) = c :: rest := by
    unfold pyLowerL
    rw [List.map_congr_left fun x hx => lowerChar_eq_self x (hup x hx)]
    exact List.map_id _
  by_cases hl : pyIslowerL (c :: rest) = true
  · rw [if_pos hl, if_neg (by rw [hrel]; simp)]
  · rw [if_neg hl, hlow, if_neg (by rw [hrel]; simp)]

/-- Claim C3 (amended): `normalise_string` is idempotent on every string
on which it succeeds whose result is non-empty, does not begin with a
single quote, and does not end with `_rel`; re-normalising such a result
returns it unchanged.  (Outside these conditions a second application
strips a further single quote or `_rel` suffix, or fails on the empty
result, as the counterexample shows.) -/
theorem c3_idempotent_amended :
    ∀ s n : String, Pred.normalise_string s = .ok n → n ≠ "" →
      n.data.head? ≠ some '\'' → endsRelL n.data = false →
      Pred.normalise_string n = .ok n := by
  intro s n h hne hq hrel
  have hchars : normaliseChars s.data = .ok n.data := by
    unfold Pred.normalise_string at h
    cases he : normaliseChars s.data with
    | error e => rw [he] at h; simp [Except.map] at h
    | ok mm =>
      rw [he] at h
      simp only [Except.map, Except.ok.injEq] at h
      rw [← h]
  have hd : n.data ≠ [] := by
    intro hco
    apply hne
    cases n
    simp only at hco
    rw [hco]
  have hidem := normaliseChars_idem s.data n.data hchars hd hq hrel
  unfold Pred.normalise_string
  rw [hidem]
  rfl

/-- Witness for C3 at `"_CAT_n_1_rel"`, whose normalised form
`"_cat_n_1"` re-normalises to itself. -/
theorem c3_idempotent_amended_witness :
    Pred.normalise_string "_cat_n_1" = .ok "_cat_n_1" :=
  c3_idempotent_amended "_CAT_n_1_rel" "_cat_n_1" (by decide) (by decide)
    (by decide) (by decide)
theorem breakAtSep_eq (sep : Char) (cs a b : List Char)
    (h : breakAtSep sep cs = some (a, b)) : cs = a ++ sep :: b := by
  induction cs generalizing a b with
  | nil => simp [breakAtSep] at h
  | cons c r ih =>
    by_cases hc : c = sep
    · subst hc
      simp [breakAtSep] at h
      rw [h.1, h.2]
      rfl
    · simp only [breakAtSep, if_neg hc] at h
      cases hb : breakAtSep sep r with
      | none => rw [hb] at h; simp at h
      | some ab =>
        rw [hb] at h
        obtain ⟨a', b'⟩ := ab
        simp only [Option.some.injEq, Prod.mk.injEq] at h
        have hr := ih a' b' hb
        rw [← h.1, ← h.2, hr]
        rfl

theorem joinSep_cons (sep : Char) (a : List Char) (r : List (List Char))
    (h : r ≠ []) : joinSep sep (a :: r) = a ++ sep :: joinSep sep r := by
  cases r with
  | nil => exact absurd rfl h
  | cons x t => rfl

theorem splitLeftN_join (sep : Char) (n : Nat) (cs : List Char) :
    joinSep sep (splitLeftN sep n cs) = cs := by
  induction n generalizing cs with
  | zero => rfl
  | succ m ih =>
    unfold splitLeftN
    cases hb : breakAtSep sep cs with
    | none => rfl
    | some ab =>
      obtain ⟨a, b⟩ := ab
      rw [joinSep_cons sep a _ (splitLeftN_ne_nil sep m b), ih]
      exact (breakAtSep_eq sep cs a b hb).symm

theorem joinSep_append_singleton (sep : Char) (A : List (List Char))
    (z : List Char) (h : A ≠ []) :
    joinSep sep (A ++ [z]) = joinSep sep A ++ sep :: z := by
  induction A with
  | nil => exact absurd rfl h
  | cons a A' ih =>
    cases A' with
    | nil => rfl
    | cons b B =>
      rw [List.cons_append, joinSep_cons sep a ((b :: B) ++ [z]) (by simp),
        joinSep_cons sep a (b :: B) (by simp), ih (by simp)]
      simp [List.append_assoc]

theorem joinSep_rev (sep : Char) (L : List (List Char)) :
    joinSep sep ((L.map List.reverse).reverse) = (joinSep sep L).reverse := by
  induction L with
  | nil => rfl
  | cons x xs ih =>
    cases xs with
    | nil => rfl
    | cons y t =>
      rw [List.map_cons, List.reverse_cons,
        joinSep_append_singleton sep _ _ (by simp), ih,
        joinSep_cons sep x (y :: t) (by simp)]
      simp [List.append_assoc]

theorem pyRsplit_join (sep : Char) (n : Nat) (cs : List Char) :
    joinSep sep (pyRsplit sep n cs) = cs := by
  unfold pyRsplit
  rw [joinSep_rev, splitLeftN_join, List.reverse_reverse]

theorem realPredMake_ok {l p : String} {sOpt : Option String} {pr : Pred}
    (h : realPredMake l p sOpt = .ok pr) : pr = .realPred l p sOpt := by
  unfold realPredMake at h
  split at h
  · simp at h
  split at h
  · simp at h
  split at h
  · simp at h
  · exact (Except.ok.inj h).symm

theorem gpredMake_ok {nm : String} {pr : Pred} (h : gpredMake nm = .ok pr) :
    pr = .gpred nm := by
  unfold gpredMake at h
  split at h
  · simp at h
  · exact (Except.ok.inj h).symm

theorem strMkApp (a b : List Char) :
    String.mk a ++ String.mk b = String.mk (a ++ b) := rfl

/-- Claim C1 (amended): for every literal accepted by `from_string` whose
normalised form does not end with an underscore (equivalently, whose
parsed sense is not the empty string), rendering the parsed predicate
reproduces the normalised form exactly. -/
theorem c1_roundtrip_amended :
    ∀ (s n : String) (p : Pred), Pred.normalise_string s = .ok n →
      n.data.getLast? ≠ some '_' → Pred.from_string s = .ok p →
      predToString p = n := by
  intro s n p hns hlast hp
  have hfn : Pred.from_normalised_string n = .ok p := by
    unfold Pred.from_string at hp
    rw [hns] at hp
    exact hp
  have hneta : String.mk n.data = n := rfl
  unfold Pred.from_normalised_string at hfn
  cases hd : n.data with
  | nil => rw [hd] at hfn; simp at hfn
  | cons c rest =>
    rw [hd] at hfn
    simp only at hfn
    by_cases hc : c = '_'
    · rw [if_pos hc] at hfn
      subst hc
      unfold realFromNormChars at hfn
      simp only [if_pos rfl] at hfn
      have hjoin := pyRsplit_join '_' 2 rest
      rcases e : pyRsplit '_' 2 rest with _ | ⟨l, _ | ⟨pp, _ | ⟨sn, _ | ⟨w, t⟩⟩⟩⟩
      · exact absurd e (pyRsplit_ne_nil _ _ _)
      · rw [e] at hfn; simp at hfn
      · rw [e] at hfn
        simp only [if_true] at hfn
        rw [e] at hjoin
        have hrest : l ++ '_' :: pp = rest := hjoin
        rw [realPredMake_ok hfn]
        rw [← hneta, hd]
        show String.mk (((['_'] ++ l) ++ ['_']) ++ pp) = String.mk ('_' :: rest)
        apply congrArg
        rw [← hrest]
        simp [List.append_assoc]
      · rw [e] at hfn
        simp only [if_true] at hfn
        rw [e] at hjoin
        have hrest : l ++ '_' :: (pp ++ '_' :: sn) = rest := hjoin
        by_cases hsn : sn = []
        · exfalso
          apply hlast
          rw [hd]
          have hshape : ('_' :: rest) = ('_' :: (l ++ '_' :: pp)) ++ ['_'] := by
            rw [← hrest, hsn]
            simp [List.append_assoc]
          rw [hshape, List.getLast?_concat]
        · rw [realPredMake_ok hfn]
          have hps : predToString (Pred.realPred (String.mk l) (String.mk pp)
              (some (String.mk sn)))
              = "_" ++ String.mk l ++ "_" ++ String.mk pp ++ "_" ++ String.mk sn := by
            simp only [predToString]
            rw [if_neg (by
              intro hmk
              apply hsn
              have := congrArg String.data hmk
              simpa using this)]
          rw [hps, ← hneta, hd]
          show String.mk (((((['_'] ++ l) ++ ['_']) ++ pp) ++ ['_']) ++ sn)
              = String.mk ('_' :: rest)
          apply congrArg
          rw [← hrest]
          simp [List.append_assoc]
      · rw [e] at hfn; simp at hfn
    · rw [if_neg hc] at hfn
      unfold gpredFromNormChars at hfn
      simp only at hfn
      rw [if_neg hc] at hfn
      rw [gpredMake_ok hfn, ← hneta, hd]
      rfl

/-- Witness for C1 at `"_cat_n_1_rel"`: the parsed predicate renders back
to the normalised form `"_cat_n_1"`. -/
theorem c1_roundtrip_amended_witness :
    predToString (.realPred "cat" "n" (some "1")) = "_cat_n_1" :=
  c1_roundtrip_amended "_cat_n_1_rel" "_cat_n_1" (.realPred "cat" "n" (some "1"))
    (by decide) (by decide) (by decide)


/-- Witness for C9 at two equal fully-specified values of each family. -/
theorem c9_antisymmetry_witness :
    Pred.realPred "cat" "n" (some "1") = Pred.realPred "cat" "n" (some "1")
      ∧ Sortinfo.eqB (.event ⟨none, some "pres", none, none, none⟩)
          (.event ⟨none, some "pres", none, none, none⟩) = true :=
  ⟨c9_antisymmetry.1 (.realPred "cat" "n" (some "1")) (.realPred "cat" "n" (some "1"))
      (by decide) (by decide) (by decide) (by decide),
   c9_antisymmetry.2 (.event ⟨none, some "pres", none, none, none⟩)
      (.event ⟨none, some "pres", none, none, none⟩)
      (by decide) (by decide) (by decide) (by decide)⟩

end PyDmrs
